import Mathlib

/-!
Verification of the geometric post-processing of the room-detector backend
(src/backend/main.py).

The embedded fragment is the portion of the service amenable to a shallow
embedding: `compute_iou`, `remove_overlapping_rooms` (greedy non-max
suppression over a stable descending-confidence sort), and the
post-inference part of the `/detect` handler (score filtering, coordinate
normalization to the 0-1000 range with rounding, ID reassignment, and the
503/400 error flow).

Modelling conventions:
- Python floats are modelled as rationals (`ℚ`); `round(x, n)` is modelled
  as rounding `x * 10^n` to the nearest integer and dividing back.
- The neural network inference and the OpenCV mask-to-polygon extraction
  are external to the embedded fragment; their outputs (per-candidate box,
  score, polygon vertices, and the uuid-generated provisional id) enter the
  model as data (`RawDet`), exactly as the handler consumes them.
- `cv2.imdecode` returning `None` is modelled by an `Option` on the decoded
  image; `MODEL is None` is modelled by a `Bool` flag.
-/

/-- Axis-aligned bounding box in pixel space, mirroring the `BoundingBox`
pydantic model and the `bbox_pixels` dicts (fields `x1, y1, x2, y2`). -/
structure Box where
  x1 : ℚ
  y1 : ℚ
  x2 : ℚ
  y2 : ℚ
  deriving DecidableEq, Repr

/-- Embedding of `compute_iou` (main.py lines 71-86): intersection corners
by max/min, early 0 when the intersection is degenerate, else
intersection over union, guarding against non-positive union. -/
def compute_iou (box1 box2 : Box) : ℚ :=
  let x1 := max box1.x1 box2.x1
  let y1 := max box1.y1 box2.y1
  let x2 := min box1.x2 box2.x2
  let y2 := min box1.y2 box2.y2
  if x2 ≤ x1 ∨ y2 ≤ y1 then 0
  else
    let intersection := (x2 - x1) * (y2 - y1)
    let area1 := (box1.x2 - box1.x1) * (box1.y2 - box1.y1)
    let area2 := (box2.x2 - box2.x1) * (box2.y2 - box2.y1)
    let union := area1 + area2 - intersection
    if union > 0 then intersection / union else 0

/-- Spec-side IoU, written from the words of the spec: "intersection area of two
rectangles divided by union area; zero when rectangles do not overlap
(intersection width or height is non-positive) or have non-positive union
area". Kept separate from `compute_iou` to state the refinement claim. -/
def iou_spec (box1 box2 : Box) : ℚ :=
  let iw := min box1.x2 box2.x2 - max box1.x1 box2.x1
  let ih := min box1.y2 box2.y2 - max box1.y1 box2.y1
  if iw ≤ 0 ∨ ih ≤ 0 then 0
  else
    let inter := iw * ih
    let u := (box1.x2 - box1.x1) * (box1.y2 - box1.y1)
      + (box2.x2 - box2.x1) * (box2.y2 - box2.y1) - inter
    if u ≤ 0 then 0 else inter / u

/-- Two rectangles with no overlapping area: the intersection width or
height is non-positive. -/
def disjointBoxes (a b : Box) : Prop :=
  min a.x2 b.x2 ≤ max a.x1 b.x1 ∨ min a.y2 b.y2 ≤ max a.y1 b.y1

/-- A room candidate as built by the `/detect` handler (the dicts appended
to `rooms`, matching the `Room` pydantic model). -/
structure Room where
  id : String
  bounding_box : List ℚ
  bbox_pixels : Box
  vertices : List (List ℚ)
  confidence : ℚ
  name_hint : Option String
  deriving DecidableEq, Repr

/-- The sort key of the call to `sorted` with key confidence and reverse=True:
`a` may come before `b` when the confidence of `a` is at least that of `b`.
The `sorted` builtin of Python is stable, as is `List.mergeSort`. -/
def confDesc (a b : Room) : Bool :=
  decide (b.confidence ≤ a.confidence)

/-- The `overlaps` flag of the inner loop of `remove_overlapping_rooms`:
true when some already-kept room has IoU with `room` strictly above the
threshold. -/
def roomOverlaps (iou_threshold : ℚ) (kept_rooms : List Room) (room : Room) : Bool :=
  kept_rooms.any fun kept =>
    decide (iou_threshold < compute_iou room.bbox_pixels kept.bbox_pixels)

/-- The main loop of `remove_overlapping_rooms` (lines 97-105): walk the
sorted candidates, appending each to `kept_rooms` unless it overlaps an
already-kept room. -/
def nmsLoop (iou_threshold : ℚ) (kept_rooms : List Room) : List Room → List Room
  | [] => kept_rooms
  | room :: rest =>
    if roomOverlaps iou_threshold kept_rooms room then
      nmsLoop iou_threshold kept_rooms rest
    else
      nmsLoop iou_threshold (kept_rooms ++ [room]) rest

/-- Embedding of `remove_overlapping_rooms` (lines 89-107): early return on
an empty list, else stable-sort by descending confidence and run the
greedy suppression loop. -/
def remove_overlapping_rooms (rooms : List Room) (iou_threshold : ℚ) : List Room :=
  if rooms.isEmpty then rooms
  else nmsLoop iou_threshold [] (rooms.mergeSort confDesc)

/-- Compatibility of a later-kept room `b` with an earlier-kept room `a`:
the IoU the loop computes when testing `b` against `a` is within the
threshold. This is the invariant the greedy loop maintains on `kept_rooms`. -/
def compatAfter (iou_threshold : ℚ) (a b : Room) : Prop :=
  compute_iou b.bbox_pixels a.bbox_pixels ≤ iou_threshold

/-- Spec-side acceptance test, from the words of the spec: "greedily accept a
candidate only if its IoU with every already-accepted candidate is ≤
threshold". -/
def acceptSpec (iou_threshold : ℚ) (accepted : List Room) (cand : Room) : Bool :=
  accepted.all fun kept =>
    decide (compute_iou cand.bbox_pixels kept.bbox_pixels ≤ iou_threshold)

/-- Spec-side greedy pass over the sorted candidates. -/
def greedySpec (iou_threshold : ℚ) (accepted : List Room) : List Room → List Room
  | [] => accepted
  | c :: cs =>
    if acceptSpec iou_threshold accepted c then
      greedySpec iou_threshold (accepted ++ [c]) cs
    else
      greedySpec iou_threshold accepted cs

/-- Spec-side suppression, written from the words of the spec: stable-sort the
candidates by descending confidence, then greedily accept. Kept separate
from `remove_overlapping_rooms` to state the refinement claim. -/
def nms_spec (rooms : List Room) (iou_threshold : ℚ) : List Room :=
  greedySpec iou_threshold [] (rooms.mergeSort confDesc)

/-- The Python call `round(x, 1)`: round to one decimal place (nearest integer
tenth). -/
def round1 (x : ℚ) : ℚ :=
  (round (x * 10) : ℤ) / 10

/-- The Python call `round(x, 3)`: round to three decimal places (applied to the
confidence score). -/
def round3 (x : ℚ) : ℚ :=
  (round (x * 1000) : ℤ) / 1000

/-- One raw detection as the handler reads it off the model output and the
contour extraction: pixel box, score, polygon vertices, and the
uuid-derived provisional id. The network and OpenCV are external; their
outputs are carried as data. -/
structure RawDet where
  box : Box
  score : ℚ
  vertices : List (List ℚ)
  rawId : String
  deriving DecidableEq, Repr

/-- The room dict built for one above-threshold detection (lines 199-216):
normalized bounding box via `pixel / dimension * 1000` rounded to one
decimal, pixel box, polygon, rounded confidence, null name hint. -/
def mkRoom (det : RawDet) (w h : ℚ) : Room :=
  { id := det.rawId
    bounding_box :=
      [ round1 (det.box.x1 / w * 1000)
      , round1 (det.box.y1 / h * 1000)
      , round1 (det.box.x2 / w * 1000)
      , round1 (det.box.y2 / h * 1000) ]
    bbox_pixels := det.box
    vertices := det.vertices
    confidence := round3 det.score
    name_hint := none }

/-- The score-filtering loop of the handler (lines 174-216): detections with
`score < threshold` are skipped, the rest become room dicts. -/
def buildRooms (dets : List RawDet) (w h : ℚ) (threshold : ℚ) : List Room :=
  (dets.filter fun det => decide (threshold ≤ det.score)).map fun det => mkRoom det w h

/-- The id payload formatted as `i+1:03d`: decimal digits of `n`,
zero-padded on the left to a minimum width of three. -/
def pad3 (n : Nat) : String :=
  if n < 10 then "00" ++ toString n
  else if n < 100 then "0" ++ toString n
  else toString n

/-- The id-reassignment loop (lines 222-223), `i` being the running index:
the room at overall index `i` gets id `"room_" ++ pad3 (i+1)`. -/
def reassignIdsFrom (i : Nat) : List Room → List Room
  | [] => []
  | r :: rs => { r with id := "room_" ++ pad3 (i + 1) } :: reassignIdsFrom (i + 1) rs

/-- Id reassignment over the whole kept list, starting the index at 0. -/
def reassignIds (rooms : List Room) : List Room :=
  reassignIdsFrom 0 rooms

/-- The response payload of a successful `/detect` call. -/
structure DetectionResult where
  width : ℚ
  height : ℚ
  total_rooms : Nat
  rooms : List Room
  deriving DecidableEq, Repr

/-- A successfully decoded upload: image dimensions plus the detections the
model produces on it (inference is external and enters as data). -/
structure ImageData where
  width : ℚ
  height : ℚ
  dets : List RawDet
  deriving DecidableEq, Repr

/-- Outcome of a `/detect` call: an `HTTPException` with a status code and
detail string, or a JSON result. -/
inductive DetectResponse where
  | httpError (status : Nat) (detail : String)
  | ok (result : DetectionResult)
  deriving DecidableEq, Repr

/-- The HTTP status code an outcome surfaces (200 for a successful JSON
response). -/
def statusOf : DetectResponse → Nat
  | .httpError s _ => s
  | .ok _ => 200

/-- The post-inference portion of the `/detect` handler (lines 172-229):
build rooms from above-threshold detections, suppress overlaps, reassign
ids, and assemble the result. -/
def detectPost (dets : List RawDet) (w h : ℚ) (threshold overlap_threshold : ℚ) :
    DetectionResult :=
  let rooms1 := remove_overlapping_rooms (buildRooms dets w h threshold) overlap_threshold
  let rooms2 := reassignIds rooms1
  { width := w, height := h, total_rooms := rooms2.length, rooms := rooms2 }

/-- The control flow of the `/detect` handler (lines 150-229): 503 when the model
is not loaded (checked first), 400 when the upload does not decode, else
the post-processed result. -/
def detect_rooms (modelLoaded : Bool) (decoded : Option ImageData)
    (threshold overlap_threshold : ℚ) : DetectResponse :=
  if modelLoaded = false then
    .httpError 503 "Model not loaded. Place maskrcnn_best.pth in backend directory."
  else
    match decoded with
    | none => .httpError 400 "Could not decode image"
    | some img =>
      .ok (detectPost img.dets img.width img.height threshold overlap_threshold)

/-- Concrete demo candidate: high-confidence 10x10 box at the origin. -/
def roomA : Room :=
  { id := "a", bounding_box := [], bbox_pixels := Box.mk 0 0 10 10
    vertices := [], confidence := 9/10, name_hint := none }

/-- Concrete demo candidate: duplicate of the box of `roomA` at lower confidence,
suppressed by the greedy pass at threshold 3/10. -/
def roomB : Room :=
  { id := "b", bounding_box := [], bbox_pixels := Box.mk 0 0 10 10
    vertices := [], confidence := 8/10, name_hint := none }

/-- Concrete demo candidate: a disjoint 10x10 box, kept at threshold 3/10. -/
def roomC : Room :=
  { id := "c", bounding_box := [], bbox_pixels := Box.mk 20 0 30 10
    vertices := [], confidence := 7/10, name_hint := none }

/-- Concrete demo candidate list for evaluating the suppression claims. -/
def demoRooms : List Room :=
  [roomA, roomB, roomC]

/-- Concrete demo detection for evaluating the `/detect` pipeline claims. -/
def demoDet : RawDet :=
  { box := Box.mk 5 10 55 30, score := 9/10, vertices := [], rawId := "u" }

/-- The room the `/detect` pipeline produces from `demoDet` on a 100x50
image: coordinates scaled into the 0-1000 range and the id reassigned. -/
def demoKept : Room :=
  { id := "room_001", bounding_box := [50, 200, 550, 600], bbox_pixels := Box.mk 5 10 55 30
    vertices := [], confidence := 9/10, name_hint := none }

/-! ## Lemmas about `compute_iou` -/

/-- Let-free characterization of `compute_iou`, definitionally equal to it. -/
theorem compute_iou_def (a b : Box) :
    compute_iou a b =
      if min a.x2 b.x2 ≤ max a.x1 b.x1 ∨ min a.y2 b.y2 ≤ max a.y1 b.y1 then 0
      else if 0 < (a.x2 - a.x1) * (a.y2 - a.y1) + (b.x2 - b.x1) * (b.y2 - b.y1)
              - (min a.x2 b.x2 - max a.x1 b.x1) * (min a.y2 b.y2 - max a.y1 b.y1)
        then (min a.x2 b.x2 - max a.x1 b.x1) * (min a.y2 b.y2 - max a.y1 b.y1) /
          ((a.x2 - a.x1) * (a.y2 - a.y1) + (b.x2 - b.x1) * (b.y2 - b.y1)
            - (min a.x2 b.x2 - max a.x1 b.x1) * (min a.y2 b.y2 - max a.y1 b.y1))
        else 0 := rfl

/-- IoU is symmetric in its two boxes. -/
theorem compute_iou_comm (a b : Box) : compute_iou a b = compute_iou b a := by
  rw [compute_iou_def, compute_iou_def, min_comm a.x2, min_comm a.y2, max_comm a.x1,
    max_comm a.y1, add_comm ((a.x2 - a.x1) * (a.y2 - a.y1))]

/-- The IoU value always lies in [0, 1]: in the positive-intersection branch
the intersection is bounded by each box area, hence by the union. -/
theorem compute_iou_mem_Icc (a b : Box) :
    0 ≤ compute_iou a b ∧ compute_iou a b ≤ 1 := by
  rw [compute_iou_def]
  split_ifs with h1 h2
  · exact ⟨le_rfl, zero_le_one⟩
  · push_neg at h1
    obtain ⟨hx, hy⟩ := h1
    have hiw : 0 < min a.x2 b.x2 - max a.x1 b.x1 := sub_pos.2 hx
    have hih : 0 < min a.y2 b.y2 - max a.y1 b.y1 := sub_pos.2 hy
    have hinter : 0 < (min a.x2 b.x2 - max a.x1 b.x1) * (min a.y2 b.y2 - max a.y1 b.y1) :=
      mul_pos hiw hih
    have hwa : min a.x2 b.x2 - max a.x1 b.x1 ≤ a.x2 - a.x1 :=
      sub_le_sub (min_le_left _ _) (le_max_left _ _)
    have hha : min a.y2 b.y2 - max a.y1 b.y1 ≤ a.y2 - a.y1 :=
      sub_le_sub (min_le_left _ _) (le_max_left _ _)
    have hwb : min a.x2 b.x2 - max a.x1 b.x1 ≤ b.x2 - b.x1 :=
      sub_le_sub (min_le_right _ _) (le_max_right _ _)
    have hhb : min a.y2 b.y2 - max a.y1 b.y1 ≤ b.y2 - b.y1 :=
      sub_le_sub (min_le_right _ _) (le_max_right _ _)
    have hia : (min a.x2 b.x2 - max a.x1 b.x1) * (min a.y2 b.y2 - max a.y1 b.y1)
        ≤ (a.x2 - a.x1) * (a.y2 - a.y1) :=
      mul_le_mul hwa hha (le_of_lt hih) (le_trans (le_of_lt hiw) hwa)
    have hib : (min a.x2 b.x2 - max a.x1 b.x1) * (min a.y2 b.y2 - max a.y1 b.y1)
        ≤ (b.x2 - b.x1) * (b.y2 - b.y1) :=
      mul_le_mul hwb hhb (le_of_lt hih) (le_trans (le_of_lt hiw) hwb)
    constructor
    · exact div_nonneg (le_of_lt hinter) (le_of_lt h2)
    · rw [div_le_one h2]
      linarith
  · exact ⟨le_rfl, zero_le_one⟩

/-- Self-IoU of a box with positive width and height is 1. -/
theorem compute_iou_self_pos (b : Box) (hx : b.x1 < b.x2) (hy : b.y1 < b.y2) :
    compute_iou b b = 1 := by
  have hA : 0 < (b.x2 - b.x1) * (b.y2 - b.y1) := mul_pos (sub_pos.2 hx) (sub_pos.2 hy)
  rw [compute_iou_def]
  simp only [min_self, max_self]
  rw [if_neg (by push_neg; exact ⟨hx, hy⟩)]
  have h : (b.x2 - b.x1) * (b.y2 - b.y1) + (b.x2 - b.x1) * (b.y2 - b.y1)
      - (b.x2 - b.x1) * (b.y2 - b.y1) = (b.x2 - b.x1) * (b.y2 - b.y1) := by ring
  rw [h, if_pos hA]
  exact div_self (ne_of_gt hA)

/-- Boxes with no overlapping area have IoU 0 (the early-return branch). -/
theorem compute_iou_disjoint_zero (a b : Box) (h : disjointBoxes a b) :
    compute_iou a b = 0 := by
  rw [compute_iou_def]
  unfold disjointBoxes at h
  rw [if_pos h]

/-! ## Claims about `compute_iou` -/

/-- C2: for every pair of axis-aligned boxes, `compute_iou` returns the
intersection area divided by the union area, and 0 when the intersection
width or height is non-positive or the union area is non-positive — i.e.
it coincides with the spec-side `iou_spec`. -/
theorem compute_iou_matches_spec (a b : Box) : compute_iou a b = iou_spec a b := by
  unfold compute_iou iou_spec
  simp only [sub_nonpos, gt_iff_lt]
  split_ifs with h1 h2 h3 <;> first | rfl | linarith

/-- C5 (counterexample): the claim "for every box b, compute_iou(b, b)
equals 1.0" fails at the degenerate box with zero width and height, where
the early non-overlap branch fires and the result is 0. -/
theorem compute_iou_self_degenerate :
    compute_iou (Box.mk 0 0 0 0) (Box.mk 0 0 0 0) = 0 ∧
      compute_iou (Box.mk 0 0 0 0) (Box.mk 0 0 0 0) ≠ 1 := by
  norm_num [compute_iou]

/-- C5 (amended): for every box with positive width and height the self-IoU
is 1.0, and for every pair of boxes with no overlapping area the IoU is
0.0. -/
theorem compute_iou_self_one_disjoint_zero (a b c : Box)
    (hx : a.x1 < a.x2) (hy : a.y1 < a.y2) (hd : disjointBoxes b c) :
    compute_iou a a = 1 ∧ compute_iou b c = 0 :=
  ⟨compute_iou_self_pos a hx hy, compute_iou_disjoint_zero b c hd⟩

/-- Witness for C5 at a concrete unit box and a concrete disjoint pair. -/
theorem compute_iou_self_one_disjoint_zero_witness :
    compute_iou (Box.mk 0 0 1 1) (Box.mk 0 0 1 1) = 1 ∧
      compute_iou (Box.mk 0 0 1 1) (Box.mk 2 0 3 1) = 0 :=
  compute_iou_self_one_disjoint_zero (Box.mk 0 0 1 1) (Box.mk 0 0 1 1) (Box.mk 2 0 3 1)
    (by norm_num) (by norm_num) (by norm_num [disjointBoxes])

/-- C10: `compute_iou` is symmetric, and for well-formed boxes (each with
`x1 ≤ x2` and `y1 ≤ y2`) the result lies in the closed interval [0, 1]. -/
theorem compute_iou_symm_bounded (a b : Box) :
    compute_iou a b = compute_iou b a ∧
      (a.x1 ≤ a.x2 ∧ a.y1 ≤ a.y2 ∧ b.x1 ≤ b.x2 ∧ b.y1 ≤ b.y2 →
        0 ≤ compute_iou a b ∧ compute_iou a b ≤ 1) :=
  ⟨compute_iou_comm a b, fun _ => compute_iou_mem_Icc a b⟩

/-- Witness for C10 at a concrete overlapping pair of well-formed boxes. -/
theorem compute_iou_symm_bounded_witness :
    compute_iou (Box.mk 0 0 2 2) (Box.mk 1 1 3 3) = compute_iou (Box.mk 1 1 3 3) (Box.mk 0 0 2 2) ∧
      0 ≤ compute_iou (Box.mk 0 0 2 2) (Box.mk 1 1 3 3) ∧
      compute_iou (Box.mk 0 0 2 2) (Box.mk 1 1 3 3) ≤ 1 :=
  ⟨(compute_iou_symm_bounded (Box.mk 0 0 2 2) (Box.mk 1 1 3 3)).1,
    (compute_iou_symm_bounded (Box.mk 0 0 2 2) (Box.mk 1 1 3 3)).2 (by norm_num)⟩
/-! ## Lemmas about the suppression loop -/

theorem confDesc_trans (a b c : Room) (hab : confDesc a b = true) (hbc : confDesc b c = true) :
    confDesc a c = true := by
  simp only [confDesc, decide_eq_true_eq] at *
  exact le_trans hbc hab

theorem confDesc_total (a b : Room) : (confDesc a b || confDesc b a) = true := by
  simp only [confDesc, Bool.or_eq_true, decide_eq_true_eq]
  exact le_total b.confidence a.confidence

theorem roomOverlaps_eq_false_iff (thr : ℚ) (kept : List Room) (room : Room) :
    roomOverlaps thr kept room = false ↔
      ∀ k ∈ kept, compute_iou room.bbox_pixels k.bbox_pixels ≤ thr := by
  simp [roomOverlaps, not_lt]

theorem acceptSpec_eq_not_overlaps (thr : ℚ) (kept : List Room) (room : Room) :
    acceptSpec thr kept room = !roomOverlaps thr kept room := by
  induction kept with
  | nil => rfl
  | cons k ks ih =>
    simp only [acceptSpec, roomOverlaps, List.all_cons, List.any_cons, Bool.not_or] at *
    rw [ih]
    congr 1
    by_cases h : compute_iou room.bbox_pixels k.bbox_pixels ≤ thr
    · simp [h, not_lt.2 h]
    · simp [h, lt_of_not_le h]

theorem greedySpec_eq_nmsLoop (thr : ℚ) (l kept : List Room) :
    greedySpec thr kept l = nmsLoop thr kept l := by
  induction l generalizing kept with
  | nil => rfl
  | cons r rest ih =>
    simp only [greedySpec, nmsLoop, acceptSpec_eq_not_overlaps]
    by_cases h : roomOverlaps thr kept r
    · simp [h, ih]
    · simp [h, ih]

theorem nmsLoop_eq_append (thr : ℚ) (l : List Room) :
    ∀ kept, ∃ t, t.Sublist l ∧ nmsLoop thr kept l = kept ++ t := by
  induction l with
  | nil => exact fun kept => ⟨[], List.Sublist.refl _, by simp [nmsLoop]⟩
  | cons r rest ih =>
    intro kept
    by_cases h : roomOverlaps thr kept r
    · obtain ⟨t, hs, he⟩ := ih kept
      exact ⟨t, hs.cons r, by simp [nmsLoop, h, he]⟩
    · obtain ⟨t, hs, he⟩ := ih (kept ++ [r])
      refine ⟨r :: t, hs.cons₂ r, ?_⟩
      simp [nmsLoop, h, he]

theorem nmsLoop_pairwise (thr : ℚ) (l : List Room) :
    ∀ kept, kept.Pairwise (compatAfter thr) →
      (nmsLoop thr kept l).Pairwise (compatAfter thr) := by
  induction l with
  | nil => exact fun kept hk => hk
  | cons r rest ih =>
    intro kept hk
    by_cases h : roomOverlaps thr kept r
    · simpa [nmsLoop, h] using ih kept hk
    · have hall := (roomOverlaps_eq_false_iff thr kept r).1 (by simpa using h)
      have hk2 : (kept ++ [r]).Pairwise (compatAfter thr) := by
        rw [List.pairwise_append]
        refine ⟨hk, by simp, ?_⟩
        intro a ha b hb
        simp only [List.mem_singleton] at hb
        subst hb
        exact hall a ha
      simpa [nmsLoop, h] using ih (kept ++ [r]) hk2

theorem nmsLoop_keeps_all (thr : ℚ) (l : List Room) :
    ∀ kept, (∀ a ∈ kept, ∀ b ∈ l, compatAfter thr a b) →
      l.Pairwise (compatAfter thr) → nmsLoop thr kept l = kept ++ l := by
  induction l with
  | nil => intro kept _ _; simp [nmsLoop]
  | cons r rest ih =>
    intro kept hcross hl
    have hno : roomOverlaps thr kept r = false := by
      rw [roomOverlaps_eq_false_iff]
      intro k hkk
      exact hcross k hkk r (by simp)
    rw [List.pairwise_cons] at hl
    have step : nmsLoop thr kept (r :: rest) = nmsLoop thr (kept ++ [r]) rest := by
      simp [nmsLoop, hno]
    rw [step, ih (kept ++ [r]) ?_ hl.2]
    · simp
    · intro a ha b hb
      rcases List.mem_append.1 ha with h1 | h2
      · exact hcross a h1 b (by simp [hb])
      · simp only [List.mem_singleton] at h2
        subst h2
        exact hl.1 b hb

theorem mergeSort_sorted_confDesc (rooms : List Room) :
    (rooms.mergeSort confDesc).Pairwise (fun a b => confDesc a b = true) :=
  List.sorted_mergeSort confDesc_trans confDesc_total rooms


/-! ## Structural lemmas about `remove_overlapping_rooms` -/

theorem remove_overlapping_rooms_sublist_sorted (rooms : List Room) (thr : ℚ) :
    (remove_overlapping_rooms rooms thr).Sublist (rooms.mergeSort confDesc) := by
  unfold remove_overlapping_rooms
  by_cases h : rooms.isEmpty = true
  · rw [List.isEmpty_iff] at h
    simp [h]
  · obtain ⟨t, hs, he⟩ := nmsLoop_eq_append thr (rooms.mergeSort confDesc) []
    simp only [h, if_false, Bool.false_eq_true]
    rw [he]
    simpa using hs

theorem remove_overlapping_rooms_pairwise_compat (rooms : List Room) (thr : ℚ) :
    (remove_overlapping_rooms rooms thr).Pairwise (compatAfter thr) := by
  unfold remove_overlapping_rooms
  by_cases h : rooms.isEmpty = true
  · rw [List.isEmpty_iff] at h
    simp [h]
  · simp only [h, if_false, Bool.false_eq_true]
    exact nmsLoop_pairwise thr _ [] List.Pairwise.nil

theorem remove_overlapping_rooms_sorted (rooms : List Room) (thr : ℚ) :
    (remove_overlapping_rooms rooms thr).Pairwise (fun a b => confDesc a b = true) :=
  List.Pairwise.sublist (remove_overlapping_rooms_sublist_sorted rooms thr)
    (mergeSort_sorted_confDesc rooms)

/-- Evaluation of the suppression on the demo list: the duplicate of
the box duplicating `roomA` is dropped, the disjoint box is kept. -/
theorem demo_eval : remove_overlapping_rooms demoRooms (3/10) = [roomA, roomC] := by
  simp only [demoRooms, roomA, roomB, roomC]
  norm_num [remove_overlapping_rooms, nmsLoop, roomOverlaps, compute_iou, confDesc,
    List.mergeSort]

/-! ## Claims about `remove_overlapping_rooms` -/

/-- C1: `remove_overlapping_rooms` returns exactly the stable descending-
confidence sort followed by the greedy keep-iff-all-IoU-below-threshold
pass (`nms_spec`); the sort keeps tied or already-ordered pairs in their
original relative order; the output is a subset of the input, is in
descending-confidence order, and empty input yields empty output. -/
theorem remove_overlapping_rooms_correct (rooms : List Room) (iou_threshold : ℚ) :
    remove_overlapping_rooms rooms iou_threshold = nms_spec rooms iou_threshold ∧
    (∀ a b : Room, [a, b].Sublist rooms → b.confidence ≤ a.confidence →
      [a, b].Sublist (rooms.mergeSort confDesc)) ∧
    (∀ r ∈ remove_overlapping_rooms rooms iou_threshold, r ∈ rooms) ∧
    (remove_overlapping_rooms rooms iou_threshold).Pairwise
      (fun a b => b.confidence ≤ a.confidence) ∧
    remove_overlapping_rooms ([] : List Room) iou_threshold = [] := by
  refine ⟨?_, ?_, ?_, ?_, rfl⟩
  · unfold remove_overlapping_rooms nms_spec
    by_cases h : rooms.isEmpty = true
    · rw [List.isEmpty_iff] at h
      simp [h, greedySpec]
    · simp only [h, if_false, Bool.false_eq_true]
      exact (greedySpec_eq_nmsLoop _ _ _).symm
  · intro a b hab hconf
    refine List.sublist_mergeSort confDesc_trans confDesc_total ?_ hab
    simp [List.pairwise_cons, confDesc, hconf]
  · intro r hr
    have hsub := remove_overlapping_rooms_sublist_sorted rooms iou_threshold
    have := hsub.subset hr
    rwa [List.mem_mergeSort] at this
  · refine (remove_overlapping_rooms_sorted rooms iou_threshold).imp ?_
    intro a b hab
    simpa [confDesc] using hab

/-- Witness for C1: on the demo list, the kept `roomA` is indeed an input
element, and an in-order pair of the input stays in order in the sort. -/
theorem remove_overlapping_rooms_correct_witness :
    roomA ∈ demoRooms ∧ [roomB, roomC].Sublist (demoRooms.mergeSort confDesc) :=
  ⟨(remove_overlapping_rooms_correct demoRooms (3/10)).2.2.1 roomA
      (by rw [demo_eval]; simp),
   (remove_overlapping_rooms_correct demoRooms (3/10)).2.1 roomB roomC
      (List.Sublist.cons roomA (List.Sublist.refl _)) (by norm_num [roomB, roomC])⟩

/-- C3: suppression never lengthens the list, and any two kept rooms at
distinct positions have pairwise IoU at most the threshold. -/
theorem remove_overlapping_rooms_invariant (rooms : List Room) (thr : ℚ) :
    (remove_overlapping_rooms rooms thr).length ≤ rooms.length ∧
      ∀ i j : Fin (remove_overlapping_rooms rooms thr).length, i ≠ j →
        compute_iou ((remove_overlapping_rooms rooms thr).get i).bbox_pixels
          ((remove_overlapping_rooms rooms thr).get j).bbox_pixels ≤ thr := by
  constructor
  · have h := (remove_overlapping_rooms_sublist_sorted rooms thr).length_le
    simpa [List.length_mergeSort] using h
  · have hp : (remove_overlapping_rooms rooms thr).Pairwise
        (fun a b => compute_iou a.bbox_pixels b.bbox_pixels ≤ thr ∧
          compute_iou b.bbox_pixels a.bbox_pixels ≤ thr) := by
      refine (remove_overlapping_rooms_pairwise_compat rooms thr).imp ?_
      intro a b hab
      exact ⟨by rw [compute_iou_comm]; exact hab, hab⟩
    intro i j hij
    rcases lt_or_gt_of_ne hij with hlt | hgt
    · exact ((List.pairwise_iff_get.1 hp) i j hlt).1
    · exact ((List.pairwise_iff_get.1 hp) j i hgt).2

/-- Witness for C3 on the demo list, whose suppressed output has two rooms. -/
theorem remove_overlapping_rooms_invariant_witness :
    (remove_overlapping_rooms demoRooms (3/10)).length ≤ demoRooms.length ∧
      compute_iou ((remove_overlapping_rooms demoRooms (3/10)).get
          ⟨0, by rw [demo_eval]; norm_num⟩).bbox_pixels
        ((remove_overlapping_rooms demoRooms (3/10)).get
          ⟨1, by rw [demo_eval]; norm_num⟩).bbox_pixels ≤ 3/10 :=
  ⟨(remove_overlapping_rooms_invariant demoRooms (3/10)).1,
   (remove_overlapping_rooms_invariant demoRooms (3/10)).2 _ _
      (Fin.ne_of_val_ne (by norm_num))⟩

/-- C4: suppression is idempotent — re-running it on its own output with the
same threshold returns the output unchanged. -/
theorem remove_overlapping_rooms_idempotent (rooms : List Room) (thr : ℚ) :
    remove_overlapping_rooms (remove_overlapping_rooms rooms thr) thr
      = remove_overlapping_rooms rooms thr := by
  by_cases h : (remove_overlapping_rooms rooms thr).isEmpty = true
  · rw [List.isEmpty_iff] at h
    rw [h]
    rfl
  · have hsorted := remove_overlapping_rooms_sorted rooms thr
    have hcompat := remove_overlapping_rooms_pairwise_compat rooms thr
    have hms : (remove_overlapping_rooms rooms thr).mergeSort confDesc
        = remove_overlapping_rooms rooms thr := List.mergeSort_of_sorted hsorted
    conv_lhs => rw [remove_overlapping_rooms]
    rw [if_neg (by simpa using h), hms,
      nmsLoop_keeps_all thr (remove_overlapping_rooms rooms thr) [] (by simp) hcompat]
    simp

theorem remove_overlapping_rooms_subset (rooms : List Room) (thr : ℚ) :
    ∀ r ∈ remove_overlapping_rooms rooms thr, r ∈ rooms := by
  intro r hr
  have hsub := remove_overlapping_rooms_sublist_sorted rooms thr
  have h2 := hsub.subset hr
  rwa [List.mem_mergeSort] at h2

theorem mem_reassignIdsFrom (l : List Room) :
    ∀ i r, r ∈ reassignIdsFrom i l → ∃ s ∈ l, r.bounding_box = s.bounding_box ∧
      r.bbox_pixels = s.bbox_pixels := by
  induction l with
  | nil => intro i r h; simp [reassignIdsFrom] at h
  | cons x xs ih =>
    intro i r h
    simp only [reassignIdsFrom, List.mem_cons] at h
    rcases h with h | h
    · exact ⟨x, by simp, by subst h; rfl, by subst h; rfl⟩
    · obtain ⟨s, hs, h1, h2⟩ := ih (i + 1) r h
      exact ⟨s, by simp [hs], h1, h2⟩

theorem length_reassignIdsFrom (l : List Room) :
    ∀ i, (reassignIdsFrom i l).length = l.length := by
  induction l with
  | nil => intro i; rfl
  | cons x xs ih => intro i; simp [reassignIdsFrom, ih (i + 1)]

theorem reassignIdsFrom_map_id (l : List Room) :
    ∀ i, (reassignIdsFrom i l).map Room.id
      = (List.range l.length).map (fun j => "room_" ++ pad3 (i + j + 1)) := by
  induction l with
  | nil => intro i; rfl
  | cons x xs ih =>
    intro i
    simp only [reassignIdsFrom, List.map_cons, List.length_cons, List.range_succ_eq_map,
      List.map_map, ih (i + 1)]
    refine congrArg₂ List.cons rfl ?_
    apply List.map_congr_left
    intro j hj
    simp only [Function.comp_apply]
    congr 2
    omega

/-- Evaluation of the post-processing pipeline on the demo detection: the
single above-threshold detection survives suppression and is renamed. -/
theorem demo_detect_eval :
    (detectPost [demoDet] 100 50 (1/2) (3/10)).rooms = [demoKept] := by
  simp only [detectPost, buildRooms, demoDet, mkRoom, demoKept]
  norm_num [remove_overlapping_rooms, nmsLoop, roomOverlaps, compute_iou, confDesc,
    List.mergeSort, reassignIds, reassignIdsFrom, pad3, round1, round3]
  rfl

/-- C6: every room kept by the `/detect` post-processing has its normalized
bounding box equal, coordinate by coordinate, to the pixel coordinate
divided by the matching image dimension, times 1000, rounded to one
decimal place. -/
theorem detect_normalized_coords (dets : List RawDet) (w h thr ovr : ℚ)
    (r : Room) (hr : r ∈ (detectPost dets w h thr ovr).rooms) :
    r.bounding_box =
      [ round1 (r.bbox_pixels.x1 / w * 1000), round1 (r.bbox_pixels.y1 / h * 1000),
        round1 (r.bbox_pixels.x2 / w * 1000), round1 (r.bbox_pixels.y2 / h * 1000) ] := by
  simp only [detectPost, reassignIds] at hr
  obtain ⟨s, hs, hbb, hbp⟩ := mem_reassignIdsFrom _ 0 r hr
  have hs2 : s ∈ buildRooms dets w h thr := remove_overlapping_rooms_subset _ ovr s hs
  simp only [buildRooms, List.mem_map] at hs2
  obtain ⟨det, _, hdet⟩ := hs2
  subst hdet
  rw [hbb, hbp]
  rfl

/-- Witness for C6: the demo detection is kept, and its normalized box is
the rounded scaling of its pixel box. -/
theorem detect_normalized_coords_witness :
    demoKept ∈ (detectPost [demoDet] 100 50 (1/2) (3/10)).rooms ∧
    demoKept.bounding_box =
      [ round1 (demoKept.bbox_pixels.x1 / 100 * 1000),
        round1 (demoKept.bbox_pixels.y1 / 50 * 1000),
        round1 (demoKept.bbox_pixels.x2 / 100 * 1000),
        round1 (demoKept.bbox_pixels.y2 / 50 * 1000) ] :=
  ⟨by rw [demo_detect_eval]; simp,
   detect_normalized_coords [demoDet] 100 50 (1/2) (3/10) demoKept
     (by rw [demo_detect_eval]; simp)⟩

/-- C9: after suppression the kept rooms carry sequential, gap-free ids: the
room at 0-based index i is named `"room_"` followed by i+1 zero-padded to
three digits. -/
theorem detect_room_ids (dets : List RawDet) (w h thr ovr : ℚ) :
    ((detectPost dets w h thr ovr).rooms).map Room.id
      = (List.range ((detectPost dets w h thr ovr).rooms).length).map
          (fun i => "room_" ++ pad3 (i + 1)) := by
  simp only [detectPost, reassignIds]
  rw [reassignIdsFrom_map_id, length_reassignIdsFrom]
  apply List.map_congr_left
  intro j hj
  congr 2
  omega

/-- C7: normalizing a pixel coordinate by `p * 1000 / d` and scaling back by
`d / 1000` recovers p within the tolerance of rounding the normalized
value to one decimal place, namely `d/1000 * 0.05`. -/
theorem normalize_roundtrip (p d : ℚ) (hd : 0 < d) :
    |round1 (p * 1000 / d) * (d / 1000) - p| ≤ d / 1000 * (1/20) := by
  have hd0 : d ≠ 0 := ne_of_gt hd
  have hkey : |round1 (p * 1000 / d) - p * 1000 / d| ≤ 1/20 := by
    unfold round1
    have habs := abs_sub_round ((p * 1000 / d) * 10)
    rw [abs_sub_comm] at habs
    have hq : ((round ((p * 1000 / d) * 10) : ℤ) : ℚ) / 10 - p * 1000 / d
        = (((round ((p * 1000 / d) * 10) : ℤ) : ℚ) - (p * 1000 / d) * 10) / 10 := by
      ring
    rw [hq, abs_div, abs_of_pos (by norm_num : (0:ℚ) < 10)]
    linarith
  have hrw : round1 (p * 1000 / d) * (d / 1000) - p
      = (round1 (p * 1000 / d) - p * 1000 / d) * (d / 1000) := by
    field_simp
    ring
  rw [hrw, abs_mul, abs_of_pos (by positivity : (0:ℚ) < d / 1000)]
  calc |round1 (p * 1000 / d) - p * 1000 / d| * (d / 1000)
      ≤ (1/20) * (d / 1000) := mul_le_mul_of_nonneg_right hkey (by positivity)
    _ = d / 1000 * (1/20) := by ring

/-- Witness for C7 at pixel coordinate 37 and dimension 100 (exact case: the
round-trip error is 0). -/
theorem normalize_roundtrip_witness :
    (0:ℚ) < 100 ∧
      |round1 ((37:ℚ) * 1000 / 100) * ((100:ℚ) / 1000) - 37| ≤ (100:ℚ) / 1000 * (1/20) :=
  ⟨by norm_num, normalize_roundtrip 37 100 (by norm_num)⟩

/-- C8 (amended): `/detect` answers 503 whenever the model is not loaded
(that check comes first), and 400 whenever the model is loaded and the
uploaded bytes do not decode to an image. -/
theorem detect_errors (modelLoaded : Bool) (decoded : Option ImageData) (thr ovr : ℚ) :
    (modelLoaded = false → statusOf (detect_rooms modelLoaded decoded thr ovr) = 503) ∧
    (modelLoaded = true → decoded = none →
      statusOf (detect_rooms modelLoaded decoded thr ovr) = 400) := by
  constructor
  · intro h
    subst h
    rfl
  · intro h hdec
    subst h
    subst hdec
    rfl

/-- C8 (counterexample): with the model not loaded and an undecodable
upload, the handler answers 503, not 400 — refuting "400 whenever the
bytes cannot be decoded" read unconditionally. -/
theorem detect_errors_counterexample :
    statusOf (detect_rooms false none (7/10) (3/10)) = 503 ∧ (503 : Nat) ≠ 400 :=
  ⟨rfl, by norm_num⟩

/-- Witness for C8: a loaded model with a decodable image never hits 400 or
503 here; concretely, no model gives 503 even with a good image, and a
loaded model with an undecodable upload gives 400. -/
theorem detect_errors_witness :
    statusOf (detect_rooms false (some (ImageData.mk 100 50 [demoDet])) (7/10) (3/10)) = 503 ∧
    statusOf (detect_rooms true none (7/10) (3/10)) = 400 :=
  ⟨(detect_errors false (some (ImageData.mk 100 50 [demoDet])) (7/10) (3/10)).1 rfl,
   (detect_errors true none (7/10) (3/10)).2 rfl rfl⟩
